import Mathlib

/-!
Shallow embedding of the transfer aggregation and display-ordering logic of
`src/components/dapps/DappTransferInitial.tsx` (the Display Sorter core):
`getTransactionCostForSorting`, `sortTransactions`, and the amount-text
resolution of `renderTransactionRow`.

Modelling conventions:
* JS `bigint` amounts become `ℤ`; the JS `number` (float) arithmetic of
  `sortingCost` and `priceUsd` is embedded as exact rational arithmetic `ℚ`.
* The JS `Record<string, ApiTokenWithPrice>` price table becomes an
  association list with first-match lookup.
* Fallible code is embedded with `Option` / `Except`: accessing
  `tokensBySlug[TONCOIN.slug].quote.priceUsd` when the native-coin entry is
  absent throws a `TypeError` in JS; that throw is modelled as `Option.none`
  (for the cost function) and `Except.error ()` (for `sortTransactions`).
* `Array.prototype.sort` with the comparator
  `(t0, t1) => t1.sortingCost - t0.sortingCost` is a stable sort (ES2019)
  into descending `sortingCost` order; it is embedded as `List.mergeSort`
  with the Boolean order `sortingLE a b = (b.sortingCost ≤ a.sortingCost)`.
-/

namespace DappTransferInitial

/-- The `quote` object of a price entry: `{priceUsd: float}`. -/
structure TokenQuote where
  priceUsd : ℚ
deriving DecidableEq

/-- A price-table entry (`ApiTokenWithPrice`): `{decimals, symbol, quote}`. -/
structure ApiTokenWithPrice where
  decimals : Nat
  symbol : String
  quote : TokenQuote
deriving DecidableEq

/-- The payload of a transfer request: one of the three variants `None`,
`TokenTransfer{slug, amount}`, `NftTransfer{...}` (the NFT fields are not
consulted by the core, so the variant is modelled as a bare constructor). -/
inductive ApiDappTransferPayload where
  | empty : ApiDappTransferPayload
  | tokenTransfer (slug : String) (amount : ℤ) : ApiDappTransferPayload
  | nftTransfer : ApiDappTransferPayload
deriving DecidableEq

/-- One requested on-chain action (`ApiDappTransfer`), restricted to the
fields the core reads. -/
structure ApiDappTransfer where
  displayedAmount : ℤ
  fullFee : ℤ
  displayedToAddress : String
  payload : ApiDappTransferPayload
  isScam : Bool
deriving DecidableEq

/-- A transfer request enriched with its original position and sorting cost
(`SortedDappTransfer extends ApiDappTransfer`). -/
structure SortedDappTransfer extends ApiDappTransfer where
  index : Nat
  sortingCost : ℚ
deriving DecidableEq

/-- The price table `Record<string, ApiTokenWithPrice>`, embedded as an
association list keyed by asset slug. -/
abbrev TokensBySlug := List (String × ApiTokenWithPrice)

/-- Property access `tokensBySlug[slug]` on the price table. -/
def lookupToken : TokensBySlug → String → Option ApiTokenWithPrice
  | [], _ => Option.none
  | (s, token) :: rest, slug => if s = slug then some token else lookupToken rest slug

/-- The type guard `isTokenTransferPayload` from `src/util/ton/transfer`. -/
def isTokenTransferPayload : ApiDappTransferPayload → Bool
  | .tokenTransfer _ _ => true
  | _ => false

/-- The type guard `isNftTransferPayload` from `src/util/ton/transfer`. -/
def isNftTransferPayload : ApiDappTransferPayload → Bool
  | .nftTransfer => true
  | _ => false

/-- Configuration record for the chain's native coin. -/
structure CoinConfig where
  slug : String
  symbol : String
  decimals : Nat

/-- Modelled from the spec: the native coin constant `TONCOIN` comes from
`src/config`, which is not among the provided sources. The spec fixes the
native coin's decimal count at 9 (scenario A: 1 coin = 1\_000\_000\_000
smallest units) and a "TON"-style symbol; the slug is its stable asset
identifier. None of the verified claims depends on the concrete values. -/
def TONCOIN : CoinConfig := { slug := "toncoin", symbol := "TON", decimals := 9 }

/-- Modelled from the spec: `toBig(x, decimals).toNumber()` from
`src/util/decimals` converts a smallest-unit integer amount to its decimal
value by scaling with `10 ^ decimals`; exact rational arithmetic stands in
for the JS float result. -/
def toBigToNumber (x : ℤ) (decimals : Nat) : ℚ := (x : ℚ) / 10 ^ decimals

/-- The constant `NFT_FAKE_COST_USD = 1_000_000_000`. -/
def NFT_FAKE_COST_USD : ℚ := 1000000000

/-- Embedding of `getTransactionCostForSorting`. Returns `Option.none`
exactly where the JS code throws: the unconditional access
`tokensBySlug[TONCOIN.slug].quote.priceUsd` raises a `TypeError` when the
native-coin price entry is absent. A token payload whose slug is absent
from the table is skipped without error (`if (token)` guard). -/
def getTransactionCostForSorting (transaction : ApiDappTransfer)
    (tokensBySlug : TokensBySlug) : Option ℚ :=
  match lookupToken tokensBySlug TONCOIN.slug with
  | Option.none => Option.none
  | some nativeToken =>
    let tonAmount := toBigToNumber (transaction.displayedAmount + transaction.fullFee)
      TONCOIN.decimals
    let cost := nativeToken.quote.priceUsd * tonAmount
    match transaction.payload with
    | .tokenTransfer slug amount =>
      match lookupToken tokensBySlug slug with
      | some token => some (cost + token.quote.priceUsd * toBigToNumber amount token.decimals)
      | Option.none => some cost
    | .nftTransfer => some (cost + NFT_FAKE_COST_USD)
    | .empty => some cost

/-- The sorting cost as the specification words it, for comparison with the
code: the native-coin term `priceUsd(nativeCoinSlug) * decimal(displayedAmount
+ fullFee)`, plus the token term exactly when the payload is a token transfer
whose slug is present in the price table, plus the fixed constant exactly when
the payload is an NFT transfer. -/
def specSortingCost (nativeToken : ApiTokenWithPrice) (tokensBySlug : TokensBySlug)
    (t : ApiDappTransfer) : ℚ :=
  nativeToken.quote.priceUsd * toBigToNumber (t.displayedAmount + t.fullFee) TONCOIN.decimals
    + (match t.payload with
       | .tokenTransfer slug amount =>
         match lookupToken tokensBySlug slug with
         | some token => token.quote.priceUsd * toBigToNumber amount token.decimals
         | Option.none => 0
       | _ => 0)
    + (if t.payload = .nftTransfer then NFT_FAKE_COST_USD else 0)

/-- The Boolean order used to embed the JS comparator
`(t0, t1) => t1.sortingCost - t0.sortingCost`: `t0` may stay before `t1`
exactly when the comparator is non-positive, i.e. descending by cost. -/
def sortingLE (a b : SortedDappTransfer) : Bool := b.sortingCost ≤ a.sortingCost

/-- The `.map((transaction, index) => ({...transaction, index, sortingCost}))`
step of `sortTransactions`, carrying the next index; `Option.none` propagates
the `TypeError` thrown by `getTransactionCostForSorting` when the native-coin
price entry is absent. -/
def annotateFrom (tokensBySlug : TokensBySlug) :
    Nat → List ApiDappTransfer → Option (List SortedDappTransfer)
  | _, [] => some []
  | i, t :: ts =>
    match getTransactionCostForSorting t tokensBySlug, annotateFrom tokensBySlug (i + 1) ts with
    | some c, some rest => some (⟨t, i, c⟩ :: rest)
    | _, _ => Option.none

/-- Embedding of `sortTransactions`. The outer `Except` records whether the
JS function returns normally (`Except.ok`) or a `TypeError` escapes
(`Except.error ()`); the inner `Option` is the JS value itself, which is
`undefined` (`Option.none`) when the transfer list argument is absent. The
stable ES sort with the descending-cost comparator is `List.mergeSort` with
the total order `sortingLE`. -/
def sortTransactions (transactions : Option (List ApiDappTransfer))
    (tokensBySlug : TokensBySlug) : Except Unit (Option (List SortedDappTransfer)) :=
  match transactions with
  | Option.none => Except.ok Option.none
  | some ts =>
    match annotateFrom tokensBySlug 0 ts with
    | some rows => Except.ok (some (rows.mergeSort sortingLE))
    | Option.none => Except.error ()

/-- Total form of the annotation step, defined when the native-coin price
entry is known to be present; used to reason about `annotateFrom`. -/
def annotatePure (nativeToken : ApiTokenWithPrice) (tokensBySlug : TokensBySlug) :
    Nat → List ApiDappTransfer → List SortedDappTransfer
  | _, [] => []
  | i, t :: ts =>
    ⟨t, i, specSortingCost nativeToken tokensBySlug t⟩
      :: annotatePure nativeToken tokensBySlug (i + 1) ts

/-- The `amountText` computation of `renderTransactionRow`. The external
formatting utilities are abstracted as the parameter `fc`, standing for
`(amount, decimals, symbol) => formatCurrency(toDecimal(amount, decimals),
symbol)` (the spec treats the formatting utilities as external collaborators
assumed correct); the native-coin amount is formatted with the native coin
decimals and symbol. An NFT payload contributes the literal text "1 NFT"; a
token payload contributes the formatted token amount when its slug resolves
in the price table and the empty string otherwise; when the payload text is
empty (JS falsy) or `displayedAmount` is non-zero (JS truthy bigint), the
formatted native amount is appended, preceded by " + " when the payload text
is non-empty. -/
def transactionRowAmountText (fc : ℤ → Nat → String → String)
    (tokensBySlug : TokensBySlug) (transaction : ApiDappTransfer) : String :=
  let amountText :=
    match transaction.payload with
    | .nftTransfer => "1 NFT"
    | .tokenTransfer slug amount =>
      match lookupToken tokensBySlug slug with
      | some token => fc amount token.decimals token.symbol
      | Option.none => ""
    | .empty => ""
  if amountText = "" ∨ transaction.displayedAmount ≠ 0 then
    (if amountText = "" then amountText else amountText ++ " + ")
      ++ fc transaction.displayedAmount TONCOIN.decimals TONCOIN.symbol
  else amountText

/-- The display-amount resolution as the specification words it: NFT payload
gives the literal "1 NFT" plus the native amount after a " + " separator
exactly when `displayedAmount` is non-zero; a resolvable token payload gives
the formatted token amount with the native suffix under the same rule, except
that an empty token text makes the native text the sole content; an
unresolvable token payload or a `None` payload gives just the formatted
native amount. -/
def specAmountText (fc : ℤ → Nat → String → String) (tokensBySlug : TokensBySlug)
    (t : ApiDappTransfer) : String :=
  let nativeText := fc t.displayedAmount TONCOIN.decimals TONCOIN.symbol
  match t.payload with
  | .nftTransfer => if t.displayedAmount ≠ 0 then ("1 NFT") ++ " + " ++ nativeText else ("1 NFT")
  | .tokenTransfer slug amount =>
    match lookupToken tokensBySlug slug with
    | some token =>
      let tokenText := fc amount token.decimals token.symbol
      if tokenText = "" then nativeText
      else if t.displayedAmount ≠ 0 then tokenText ++ " + " ++ nativeText
      else tokenText
    | Option.none => nativeText
  | .empty => nativeText

/-- Concrete native-coin price entry used for witnesses: 9 decimals, $100. -/
def sampleNative : ApiTokenWithPrice := ⟨9, "TON", ⟨100⟩⟩

/-- Concrete token price entry used for witnesses: 2 decimals, $2. -/
def sampleTokenX : ApiTokenWithPrice := ⟨2, "X", ⟨2⟩⟩

/-- Concrete price table used for witnesses. -/
def sampleTokens : TokensBySlug := [("toncoin", sampleNative), ("x", sampleTokenX)]

/-- Concrete native-only transfer: 1 coin plus 0.01 coin fee. -/
def sampleT0 : ApiDappTransfer := ⟨1000000000, 10000000, "addr0", .empty, false⟩

/-- Concrete NFT transfer with zero native amount. -/
def sampleT1 : ApiDappTransfer := ⟨0, 0, "addr1", .nftTransfer, false⟩

/-- Concrete token transfer: 50.00 of token "x" plus 0.02 coin fee. -/
def sampleT2 : ApiDappTransfer := ⟨0, 20000000, "addr2", .tokenTransfer ("x") 5000, false⟩

/-- Concrete token transfer whose slug is absent from `sampleTokens`. -/
def sampleT3 : ApiDappTransfer := ⟨0, 10000000, "addr3", .tokenTransfer ("zzz") 7, false⟩

/-- Concrete transfer list used for witnesses. -/
def sampleTransfers : List ApiDappTransfer := [sampleT0, sampleT1, sampleT2]

/-- The sorted output for `sampleTransfers` with `sampleTokens`: costs are
1e9 (NFT), 102 (token), 101 (native), so input positions come out in the
order 1, 2, 0. -/
def sampleRows : List SortedDappTransfer :=
  [⟨sampleT1, 1, 1000000000⟩, ⟨sampleT2, 2, 102⟩, ⟨sampleT0, 0, 101⟩]

/-- Concrete formatter used for witnesses; never returns empty text. -/
def sampleFormat : ℤ → Nat → String → String := fun _ _ _ => "x"

theorem cost_eq_spec {tokensBySlug : TokensBySlug} {nativeToken : ApiTokenWithPrice}
    (hp : lookupToken tokensBySlug TONCOIN.slug = some nativeToken)
    (t : ApiDappTransfer) :
    getTransactionCostForSorting t tokensBySlug
      = some (specSortingCost nativeToken tokensBySlug t) := by
  unfold getTransactionCostForSorting specSortingCost
  rw [hp]
  cases h : t.payload with
  | empty => simp
  | tokenTransfer slug amount =>
    cases hl : lookupToken tokensBySlug slug <;> simp [hl]
  | nftTransfer => simp

theorem annotateFrom_eq_annotatePure {tokensBySlug : TokensBySlug}
    {nativeToken : ApiTokenWithPrice}
    (hp : lookupToken tokensBySlug TONCOIN.slug = some nativeToken) :
    ∀ (i : Nat) (ts : List ApiDappTransfer),
      annotateFrom tokensBySlug i ts = some (annotatePure nativeToken tokensBySlug i ts)
  | _, [] => rfl
  | i, t :: ts => by
    rw [annotateFrom, annotatePure, cost_eq_spec hp t,
      annotateFrom_eq_annotatePure hp (i + 1) ts]

theorem annotatePure_length (nativeToken : ApiTokenWithPrice) (tokensBySlug : TokensBySlug) :
    ∀ (i : Nat) (ts : List ApiDappTransfer),
      (annotatePure nativeToken tokensBySlug i ts).length = ts.length
  | _, [] => rfl
  | i, _ :: ts => by
    rw [annotatePure, List.length_cons, List.length_cons,
      annotatePure_length nativeToken tokensBySlug (i + 1) ts]

theorem annotatePure_getElem (nativeToken : ApiTokenWithPrice) (tokensBySlug : TokensBySlug) :
    ∀ (i : Nat) (ts : List ApiDappTransfer) (k : Nat) (hk : k < ts.length)
      (hk2 : k < (annotatePure nativeToken tokensBySlug i ts).length),
      (annotatePure nativeToken tokensBySlug i ts)[k]
        = ⟨ts[k], i + k, specSortingCost nativeToken tokensBySlug ts[k]⟩
  | _, [], k, hk, _ => absurd hk (Nat.not_lt_zero k)
  | i, t :: ts, 0, _, _ => by simp [annotatePure]
  | i, t :: ts, k + 1, hk, hk2 => by
    simp only [annotatePure, List.getElem_cons_succ]
    have hk3 : k < (annotatePure nativeToken tokensBySlug (i + 1) ts).length := by
      rw [annotatePure_length]
      exact Nat.lt_of_succ_lt_succ hk
    simpa [Nat.add_assoc, Nat.add_comm 1 k] using
      annotatePure_getElem nativeToken tokensBySlug (i + 1) ts k
        (Nat.lt_of_succ_lt_succ hk) hk3

theorem annotatePure_map_index (nativeToken : ApiTokenWithPrice)
    (tokensBySlug : TokensBySlug) :
    ∀ (i : Nat) (ts : List ApiDappTransfer),
      (annotatePure nativeToken tokensBySlug i ts).map (fun r => r.index)
        = List.range' i ts.length
  | _, [] => rfl
  | i, t :: ts => by
    rw [annotatePure, List.map_cons, List.length_cons, List.range'_succ,
      annotatePure_map_index nativeToken tokensBySlug (i + 1) ts]

theorem mem_annotatePure {nativeToken : ApiTokenWithPrice} {tokensBySlug : TokensBySlug}
    {ts : List ApiDappTransfer} {r : SortedDappTransfer}
    (h : r ∈ annotatePure nativeToken tokensBySlug 0 ts) :
    ∃ hk : r.index < ts.length,
      r = ⟨ts[r.index], r.index, specSortingCost nativeToken tokensBySlug ts[r.index]⟩ := by
  rcases List.mem_iff_getElem.mp h with ⟨k, hk2, hget⟩
  have hk : k < ts.length := by
    have := hk2
    rwa [annotatePure_length] at this
  rw [annotatePure_getElem nativeToken tokensBySlug 0 ts k hk hk2] at hget
  have hidx : r.index = k := by rw [← hget]; exact Nat.zero_add k
  subst hidx
  have hget2 := hget.symm
  rw [Nat.zero_add] at hget2
  exact ⟨hk, hget2⟩

theorem sortingLE_trans (a b c : SortedDappTransfer) :
    sortingLE a b → sortingLE b c → sortingLE a c := by
  simp only [sortingLE, decide_eq_true_eq]
  exact fun h1 h2 => le_trans h2 h1

theorem sortingLE_total (a b : SortedDappTransfer) : sortingLE a b || sortingLE b a := by
  simp only [sortingLE, Bool.or_eq_true, decide_eq_true_eq]
  exact le_total b.sortingCost a.sortingCost

theorem sortTransactions_ok {tokensBySlug : TokensBySlug} {nativeToken : ApiTokenWithPrice}
    (hp : lookupToken tokensBySlug TONCOIN.slug = some nativeToken)
    (ts : List ApiDappTransfer) :
    sortTransactions (some ts) tokensBySlug
      = Except.ok (some ((annotatePure nativeToken tokensBySlug 0 ts).mergeSort sortingLE)) := by
  simp only [sortTransactions, annotateFrom_eq_annotatePure hp 0 ts]

theorem rows_map_index_perm (tokensBySlug : TokensBySlug) (nativeToken : ApiTokenWithPrice)
    (ts : List ApiDappTransfer) :
    List.Perm
      (((annotatePure nativeToken tokensBySlug 0 ts).mergeSort sortingLE).map
        (fun r => r.index))
      (List.range ts.length) := by
  have h1 := (List.mergeSort_perm (annotatePure nativeToken tokensBySlug 0 ts) sortingLE).map
    (fun r => r.index)
  rw [annotatePure_map_index nativeToken tokensBySlug 0 ts, ← List.range_eq_range'] at h1
  exact h1

theorem rows_map_index_nodup (tokensBySlug : TokensBySlug) (nativeToken : ApiTokenWithPrice)
    (ts : List ApiDappTransfer) :
    (((annotatePure nativeToken tokensBySlug 0 ts).mergeSort sortingLE).map
      (fun r => r.index)).Nodup :=
  ((rows_map_index_perm tokensBySlug nativeToken ts).nodup_iff).mpr
    (List.nodup_range ts.length)

theorem rows_nodup (tokensBySlug : TokensBySlug) (nativeToken : ApiTokenWithPrice)
    (ts : List ApiDappTransfer) :
    ((annotatePure nativeToken tokensBySlug 0 ts).mergeSort sortingLE).Nodup :=
  (rows_map_index_nodup tokensBySlug nativeToken ts).of_map (fun r => r.index)

theorem mem_rows {tokensBySlug : TokensBySlug} {nativeToken : ApiTokenWithPrice}
    {ts : List ApiDappTransfer} {r : SortedDappTransfer}
    (h : r ∈ (annotatePure nativeToken tokensBySlug 0 ts).mergeSort sortingLE) :
    ∃ hk : r.index < ts.length,
      r = ⟨ts[r.index], r.index, specSortingCost nativeToken tokensBySlug ts[r.index]⟩ :=
  mem_annotatePure (List.mem_mergeSort.mp h)

theorem mem_rows_exists {tokensBySlug : TokensBySlug} {nativeToken : ApiTokenWithPrice}
    {ts : List ApiDappTransfer} {r : SortedDappTransfer}
    (h : r ∈ (annotatePure nativeToken tokensBySlug 0 ts).mergeSort sortingLE) :
    ∃ (a : Nat) (ha : a < ts.length),
      r = ⟨ts[a], a, specSortingCost nativeToken tokensBySlug (ts[a])⟩ := by
  rcases mem_rows h with ⟨hk, hreq⟩
  exact ⟨r.index, hk, hreq⟩

theorem specSortingCost_nft {nativeToken : ApiTokenWithPrice} {tokensBySlug : TokensBySlug}
    {t : ApiDappTransfer} (h : t.payload = .nftTransfer) :
    specSortingCost nativeToken tokensBySlug t
      = nativeToken.quote.priceUsd
          * toBigToNumber (t.displayedAmount + t.fullFee) TONCOIN.decimals
        + NFT_FAKE_COST_USD := by
  unfold specSortingCost
  rw [h]
  simp

theorem index_ne_of_lt (tokensBySlug : TokensBySlug) (nativeToken : ApiTokenWithPrice)
    (ts : List ApiDappTransfer) {i j : Nat}
    (hi : i < ((annotatePure nativeToken tokensBySlug 0 ts).mergeSort sortingLE).length)
    (hj : j < ((annotatePure nativeToken tokensBySlug 0 ts).mergeSort sortingLE).length)
    (hij : i < j) :
    ((annotatePure nativeToken tokensBySlug 0 ts).mergeSort sortingLE)[i].index
      ≠ ((annotatePure nativeToken tokensBySlug 0 ts).mergeSort sortingLE)[j].index := by
  intro he
  have hnd := rows_map_index_nodup tokensBySlug nativeToken ts
  have hi2 : i < (((annotatePure nativeToken tokensBySlug 0 ts).mergeSort sortingLE).map
      (fun r => r.index)).length := by simpa using hi
  have hj2 : j < (((annotatePure nativeToken tokensBySlug 0 ts).mergeSort sortingLE).map
      (fun r => r.index)).length := by simpa using hj
  have heq : (((annotatePure nativeToken tokensBySlug 0 ts).mergeSort sortingLE).map
        (fun r => r.index))[i]
      = (((annotatePure nativeToken tokensBySlug 0 ts).mergeSort sortingLE).map
        (fun r => r.index))[j] := by
    simpa [List.getElem_map] using he
  exact Nat.ne_of_lt hij (hnd.getElem_inj_iff.mp heq)

theorem rows_sorted {tokensBySlug : TokensBySlug} {nativeToken : ApiTokenWithPrice}
    (ts : List ApiDappTransfer) {i j : Nat}
    (hi : i < ((annotatePure nativeToken tokensBySlug 0 ts).mergeSort sortingLE).length)
    (hj : j < ((annotatePure nativeToken tokensBySlug 0 ts).mergeSort sortingLE).length)
    (hij : i < j) :
    ((annotatePure nativeToken tokensBySlug 0 ts).mergeSort sortingLE)[j].sortingCost
      ≤ ((annotatePure nativeToken tokensBySlug 0 ts).mergeSort sortingLE)[i].sortingCost := by
  have h1 := List.sorted_mergeSort sortingLE_trans sortingLE_total
    (annotatePure nativeToken tokensBySlug 0 ts)
  have h2 := (List.pairwise_iff_getElem.mp h1) i j hi hj hij
  simpa [sortingLE] using h2

theorem mergeSort_getElem_index {A : List SortedDappTransfer}
    (hidx : ∀ (k : Nat) (hk : k < A.length), A[k].index = k)
    {m : Nat} (hm : m < (A.mergeSort sortingLE).length) :
    ∃ (a : Nat) (ha : a < A.length),
      A[a] = (A.mergeSort sortingLE)[m] ∧ (A.mergeSort sortingLE)[m].index = a := by
  have hmem : (A.mergeSort sortingLE)[m] ∈ A := List.mem_mergeSort.mp (List.getElem_mem hm)
  rcases List.mem_iff_getElem.mp hmem with ⟨a, haA, hgetA⟩
  exact ⟨a, haA, hgetA, by rw [← hgetA, hidx a haA]⟩

theorem mergeSort_index_nodup {A : List SortedDappTransfer}
    (hidx : ∀ (k : Nat) (hk : k < A.length), A[k].index = k) :
    (A.mergeSort sortingLE).Nodup := by
  have hmap : A.map (fun r => r.index) = List.range A.length := by
    apply List.ext_getElem
    · simp
    · intro k h1 h2
      have hkA : k < A.length := by simpa using h1
      simp [hidx k hkA]
  have hperm := (List.mergeSort_perm A sortingLE).map (fun r => r.index)
  rw [hmap] at hperm
  exact (hperm.nodup_iff.mpr (List.nodup_range A.length)).of_map (fun r => r.index)

theorem mergeSort_index_tie_stable {A : List SortedDappTransfer}
    (hidx : ∀ (k : Nat) (hk : k < A.length), A[k].index = k)
    {i j : Nat} (hi : i < (A.mergeSort sortingLE).length)
    (hj : j < (A.mergeSort sortingLE).length) (hij : i < j)
    (hcost : (A.mergeSort sortingLE)[i].sortingCost = (A.mergeSort sortingLE)[j].sortingCost) :
    (A.mergeSort sortingLE)[i].index < (A.mergeSort sortingLE)[j].index := by
  have hnd : (A.mergeSort sortingLE).Nodup := mergeSort_index_nodup hidx
  obtain ⟨a, haA, hgeta, hia⟩ := mergeSort_getElem_index hidx hi
  obtain ⟨b, hbA, hgetb, hjb⟩ := mergeSort_getElem_index hidx hj
  rw [hia, hjb]
  have hane : a ≠ b := by
    intro he
    subst he
    have : (A.mergeSort sortingLE)[i] = (A.mergeSort sortingLE)[j] := by
      rw [← hgeta, ← hgetb]
    exact Nat.ne_of_lt hij (hnd.getElem_inj_iff.mp this)
  rcases Nat.lt_or_ge a b with hlt | hge
  · exact hlt
  exfalso
  have hba : b < a := Nat.lt_of_le_of_ne hge hane.symm
  -- the two rows, in input order, form a sorted pair, hence a sublist of the
  -- stable merge-sorted output; by nodup that contradicts i < j
  have hpw2 : ([⟨b, hbA⟩, ⟨a, haA⟩] : List (Fin A.length)).Pairwise
      (fun x y => x < y) := by
    refine List.pairwise_cons.mpr ⟨?_, List.pairwise_singleton _ _⟩
    intro y hy
    rw [List.mem_singleton] at hy
    subst hy
    exact Fin.mk_lt_mk.mpr hba
  have hsub0 := List.map_getElem_sublist hpw2
  simp only [List.map_cons, List.map_nil, Fin.getElem_fin] at hsub0
  rw [hgetb, hgeta] at hsub0
  have hle : sortingLE (A.mergeSort sortingLE)[j] (A.mergeSort sortingLE)[i] := by
    simp [sortingLE, hcost, le_refl]
  have hsub : List.Sublist [(A.mergeSort sortingLE)[j], (A.mergeSort sortingLE)[i]]
      (A.mergeSort sortingLE) :=
    List.pair_sublist_mergeSort sortingLE_trans sortingLE_total hle hsub0
  rcases List.sublist_eq_map_getElem hsub with ⟨is, his, hpw⟩
  have hlen2 : is.length = 2 := by
    have := congrArg List.length his
    simpa using this.symm
  rcases is with ⟨⟩ | ⟨p, ⟨⟩ | ⟨q, ⟨⟩ | ⟨r2, rest⟩⟩⟩ <;> simp at hlen2
  simp only [List.map_cons, List.map_nil, Fin.getElem_fin, List.cons.injEq,
    and_true] at his
  obtain ⟨h1, h2⟩ := his
  have hq : p < q := by
    have := List.pairwise_cons.mp hpw
    exact this.1 q (List.mem_cons_self q [])
  have hpj : j = (p : Nat) := hnd.getElem_inj_iff.mp h1
  have hqi : i = (q : Nat) := hnd.getElem_inj_iff.mp h2
  rw [Fin.lt_iff_val_lt_val, ← hpj, ← hqi] at hq
  exact Nat.lt_asymm hij hq

theorem annotatePure_index_eq (nativeToken : ApiTokenWithPrice) (tokensBySlug : TokensBySlug)
    (ts : List ApiDappTransfer) :
    ∀ (k : Nat) (hk : k < (annotatePure nativeToken tokensBySlug 0 ts).length),
      (annotatePure nativeToken tokensBySlug 0 ts)[k].index = k := by
  intro k hk
  have hk2 : k < ts.length := by
    have := hk
    rwa [annotatePure_length] at this
  rw [annotatePure_getElem nativeToken tokensBySlug 0 ts k hk2 hk]
  exact Nat.zero_add k

theorem rows_tie_stable {tokensBySlug : TokensBySlug} {nativeToken : ApiTokenWithPrice}
    (ts : List ApiDappTransfer) {i j : Nat}
    (hi : i < ((annotatePure nativeToken tokensBySlug 0 ts).mergeSort sortingLE).length)
    (hj : j < ((annotatePure nativeToken tokensBySlug 0 ts).mergeSort sortingLE).length)
    (hij : i < j)
    (hcost : ((annotatePure nativeToken tokensBySlug 0 ts).mergeSort sortingLE)[i].sortingCost
      = ((annotatePure nativeToken tokensBySlug 0 ts).mergeSort sortingLE)[j].sortingCost) :
    ((annotatePure nativeToken tokensBySlug 0 ts).mergeSort sortingLE)[i].index
      < ((annotatePure nativeToken tokensBySlug 0 ts).mergeSort sortingLE)[j].index :=
  mergeSort_index_tie_stable (annotatePure_index_eq nativeToken tokensBySlug ts) hi hj hij hcost

theorem amountText_eq_spec (fc : ℤ → Nat → String → String) (tokensBySlug : TokensBySlug)
    (t : ApiDappTransfer) :
    transactionRowAmountText fc tokensBySlug t = specAmountText fc tokensBySlug t := by
  unfold transactionRowAmountText specAmountText
  cases h : t.payload with
  | empty => simp
  | nftTransfer =>
    by_cases hd : t.displayedAmount = 0 <;> simp [hd]
  | tokenTransfer slug amount =>
    cases hl : lookupToken tokensBySlug slug with
    | none => simp [hl]
    | some token =>
      by_cases he : fc amount token.decimals token.symbol = "" <;>
        by_cases hd : t.displayedAmount = 0 <;>
          simp [hl, he, hd]

theorem append_ne_empty_right (s t : String) (h : t ≠ "") : s ++ t ≠ "" := by
  intro he
  apply h
  have hlen := congrArg String.length he
  rw [String.length_append] at hlen
  have ht : t.length = 0 := by
    have h0 : ("" : String).length = 0 := rfl
    omega
  exact String.ext (List.length_eq_zero.mp ht)

/-- C1: for every transfer request, when the native-coin price entry is
present, the computed sortingCost equals priceUsd(nativeCoinSlug) times the
decimal value of (displayedAmount + fullFee) scaled by the native coin's
decimals, plus, exactly when the payload is TokenTransfer{slug, amount} with
slug present in the price table, priceUsd(slug) times the decimal value of
amount scaled by that token's decimals, plus, exactly when the payload is
NftTransfer, the fixed constant 1,000,000,000; a None payload contributes
nothing beyond the native-coin term (`specSortingCost` is that formula). -/
theorem claim_C1_sorting_cost_formula (tokensBySlug : TokensBySlug)
    (t : ApiDappTransfer) (nativeToken : ApiTokenWithPrice)
    (hp : lookupToken tokensBySlug TONCOIN.slug = some nativeToken) :
    getTransactionCostForSorting t tokensBySlug
      = some (specSortingCost nativeToken tokensBySlug t) :=
  cost_eq_spec hp t

/-- C2: in the sorted output, every NFT-payload row precedes every non-NFT
row whose own valuation is below the artificial floor `NFT_FAKE_COST_USD`,
given the native-coin entry exists, its price is non-negative and every
request moves a non-negative native amount. -/
theorem claim_C2_nft_priority (tokensBySlug : TokensBySlug)
    (nativeToken : ApiTokenWithPrice) (ts : List ApiDappTransfer)
    (rows : List SortedDappTransfer)
    (hp : lookupToken tokensBySlug TONCOIN.slug = some nativeToken)
    (hprice : 0 ≤ nativeToken.quote.priceUsd)
    (hamounts : ∀ t ∈ ts, 0 ≤ t.displayedAmount + t.fullFee)
    (hs : sortTransactions (some ts) tokensBySlug = Except.ok (some rows))
    (i j : Nat) (hi : i < rows.length) (hj : j < rows.length)
    (hnft : isNftTransferPayload (rows[i].payload))
    (hnonnft : ¬ isNftTransferPayload (rows[j].payload))
    (hbelow : rows[j].sortingCost < NFT_FAKE_COST_USD) :
    i < j := by
  have hrows : rows = (annotatePure nativeToken tokensBySlug 0 ts).mergeSort sortingLE := by
    have h2 := sortTransactions_ok hp ts
    rw [hs] at h2
    simpa using h2
  subst hrows
  rcases mem_rows_exists (List.getElem_mem hi) with ⟨a, ha, hri⟩
  have hpay : (((annotatePure nativeToken tokensBySlug 0 ts).mergeSort
      sortingLE)[i]).payload = (ts[a]).payload :=
    congrArg (fun x => x.payload) hri
  have hnft2 : (ts[a]).payload = ApiDappTransferPayload.nftTransfer := by
    have hnft3 := hnft
    rw [hpay] at hnft3
    revert hnft3
    cases (ts[a]).payload <;> simp [isNftTransferPayload]
  have hcosti : (((annotatePure nativeToken tokensBySlug 0 ts).mergeSort
      sortingLE)[i]).sortingCost = specSortingCost nativeToken tokensBySlug (ts[a]) :=
    congrArg (fun x => x.sortingCost) hri
  have hfloor : NFT_FAKE_COST_USD
      ≤ (((annotatePure nativeToken tokensBySlug 0 ts).mergeSort
        sortingLE)[i]).sortingCost := by
    rw [hcosti, specSortingCost_nft hnft2]
    have hnn : 0 ≤ nativeToken.quote.priceUsd
        * toBigToNumber ((ts[a]).displayedAmount + (ts[a]).fullFee) TONCOIN.decimals := by
      apply mul_nonneg hprice
      unfold toBigToNumber
      apply div_nonneg
      · exact_mod_cast hamounts _ (List.getElem_mem ha)
      · positivity
    linarith
  have hlt : (((annotatePure nativeToken tokensBySlug 0 ts).mergeSort
      sortingLE)[j]).sortingCost
      < (((annotatePure nativeToken tokensBySlug 0 ts).mergeSort
        sortingLE)[i]).sortingCost :=
    lt_of_lt_of_le hbelow hfloor
  rcases Nat.lt_trichotomy i j with h | h | h
  · exact h
  · exfalso
    subst h
    exact hnonnft hnft
  · exfalso
    have := rows_sorted ts hj hi h
    exact absurd (lt_of_lt_of_le hlt this) (lt_irrefl _)

/-- C3: each output row's index field equals that row's position in the
original input list, and the index values across the output are pairwise
distinct. -/
theorem claim_C3_index_stability (tokensBySlug : TokensBySlug)
    (nativeToken : ApiTokenWithPrice) (ts : List ApiDappTransfer)
    (rows : List SortedDappTransfer)
    (hp : lookupToken tokensBySlug TONCOIN.slug = some nativeToken)
    (hs : sortTransactions (some ts) tokensBySlug = Except.ok (some rows)) :
    (∀ r ∈ rows, ts[r.index]? = some r.toApiDappTransfer)
      ∧ (rows.map fun r => r.index).Nodup := by
  have hrows : rows = (annotatePure nativeToken tokensBySlug 0 ts).mergeSort sortingLE := by
    have h2 := sortTransactions_ok hp ts
    rw [hs] at h2
    simpa using h2
  subst hrows
  refine ⟨?_, rows_map_index_nodup tokensBySlug nativeToken ts⟩
  intro r hr
  rcases mem_rows hr with ⟨hk, hreq⟩
  have h2 : r.toApiDappTransfer = ts[r.index] :=
    congrArg (fun x => x.toApiDappTransfer) hreq
  rw [h2, List.getElem?_eq_getElem hk]

/-- C4: the output rows are ordered by sortingCost in descending order, and
any two rows with equal sortingCost appear in the same relative order as
their source requests in the input list (stable sort): since index equals
original position, equal-cost rows come out in increasing index order. -/
theorem claim_C4_descending_stable (tokensBySlug : TokensBySlug)
    (nativeToken : ApiTokenWithPrice) (ts : List ApiDappTransfer)
    (rows : List SortedDappTransfer)
    (hp : lookupToken tokensBySlug TONCOIN.slug = some nativeToken)
    (hs : sortTransactions (some ts) tokensBySlug = Except.ok (some rows))
    (i j : Nat) (hi : i < rows.length) (hj : j < rows.length) (hij : i < j) :
    rows[j].sortingCost ≤ rows[i].sortingCost
      ∧ (rows[i].sortingCost = rows[j].sortingCost → rows[i].index < rows[j].index) := by
  have hrows : rows = (annotatePure nativeToken tokensBySlug 0 ts).mergeSort sortingLE := by
    have h2 := sortTransactions_ok hp ts
    rw [hs] at h2
    simpa using h2
  subst hrows
  exact ⟨rows_sorted ts hi hj hij, fun hc => rows_tie_stable ts hi hj hij hc⟩

/-- C5: when the transfer list argument is absent (undefined), sort returns
undefined without error; when the list is present but empty, sort returns the
empty list. -/
theorem claim_C5_empty_absent (tokensBySlug : TokensBySlug) :
    sortTransactions Option.none tokensBySlug = Except.ok Option.none
      ∧ sortTransactions (some []) tokensBySlug = Except.ok (some []) :=
  ⟨rfl, by simp [sortTransactions, annotateFrom]⟩

/-- C6: a token payload whose slug is absent from the price table does not
fail: the sortingCost is the native-coin-only valuation. -/
theorem claim_C6_missing_token_graceful (tokensBySlug : TokensBySlug)
    (t : ApiDappTransfer) (nativeToken : ApiTokenWithPrice)
    (slug : String) (amount : ℤ)
    (hp : lookupToken tokensBySlug TONCOIN.slug = some nativeToken)
    (hpayload : t.payload = .tokenTransfer slug amount)
    (hmiss : lookupToken tokensBySlug slug = Option.none) :
    getTransactionCostForSorting t tokensBySlug
      = some (nativeToken.quote.priceUsd
          * toBigToNumber (t.displayedAmount + t.fullFee) TONCOIN.decimals) := by
  unfold getTransactionCostForSorting
  rw [hp, hpayload]
  simp [hmiss]

/-- C7: cost computation fails (the JS access throws, modelled as
`Option.none`) exactly when the price table has no entry for the native
coin's own slug — so with the native entry missing it fails for every
request and never returns a valuation, and with the entry present it never
fails. -/
theorem claim_C7_native_entry_required (t : ApiDappTransfer)
    (tokensBySlug : TokensBySlug) :
    getTransactionCostForSorting t tokensBySlug = Option.none
      ↔ lookupToken tokensBySlug TONCOIN.slug = Option.none := by
  unfold getTransactionCostForSorting
  cases hn : lookupToken tokensBySlug TONCOIN.slug with
  | none => simp
  | some nativeToken =>
    cases t.payload with
    | empty => simp
    | tokenTransfer slug amount =>
      cases hl : lookupToken tokensBySlug slug <;> simp [hl]
    | nftTransfer => simp

/-- C8: the per-row display-amount resolution matches the specification's
case analysis (`specAmountText`): "1 NFT" with the native amount appended
after " + " exactly when displayedAmount is non-zero; a resolvable token
payload gives the formatted token amount with the same suffix rule (the
native text standing alone when the token text is empty); an unresolvable
token payload or a None payload gives just the formatted native amount. -/
theorem claim_C8_display_amount_resolution (fc : ℤ → Nat → String → String)
    (tokensBySlug : TokensBySlug) (t : ApiDappTransfer) :
    transactionRowAmountText fc tokensBySlug t = specAmountText fc tokensBySlug t :=
  amountText_eq_spec fc tokensBySlug t

/-- C9: every output row agrees with its source request on every request
field (the embedded `ApiDappTransfer` is exactly the input element at the
row's index), and the added sortingCost field is the cost computed for that
request; the input list is untouched (the embedding is pure, as is the JS
code, which maps to fresh objects before sorting). -/
theorem claim_C9_row_preserves_request (tokensBySlug : TokensBySlug)
    (nativeToken : ApiTokenWithPrice) (ts : List ApiDappTransfer)
    (rows : List SortedDappTransfer)
    (hp : lookupToken tokensBySlug TONCOIN.slug = some nativeToken)
    (hs : sortTransactions (some ts) tokensBySlug = Except.ok (some rows)) :
    ∀ r ∈ rows, ts[r.index]? = some r.toApiDappTransfer
      ∧ getTransactionCostForSorting r.toApiDappTransfer tokensBySlug
          = some r.sortingCost := by
  have hrows : rows = (annotatePure nativeToken tokensBySlug 0 ts).mergeSort sortingLE := by
    have h2 := sortTransactions_ok hp ts
    rw [hs] at h2
    simpa using h2
  subst hrows
  intro r hr
  rcases mem_rows hr with ⟨hk, hreq⟩
  have h2 : r.toApiDappTransfer = ts[r.index] :=
    congrArg (fun x => x.toApiDappTransfer) hreq
  have h3 : r.sortingCost = specSortingCost nativeToken tokensBySlug (ts[r.index]) :=
    congrArg (fun x => x.sortingCost) hreq
  refine ⟨by rw [h2, List.getElem?_eq_getElem hk], ?_⟩
  rw [h2, h3]
  exact cost_eq_spec hp (ts[r.index])

/-- C10: the resolved display-amount text is never empty when the external
formatter never returns empty text: whenever the payload-derived text is
empty (None payload, or token payload with unresolvable metadata), the
formatted native-coin amount is emitted even when displayedAmount is zero. -/
theorem claim_C10_text_nonempty (fc : ℤ → Nat → String → String)
    (tokensBySlug : TokensBySlug) (t : ApiDappTransfer)
    (hfc : ∀ (a : ℤ) (d : Nat) (s : String), fc a d s ≠ "") :
    transactionRowAmountText fc tokensBySlug t ≠ "" := by
  rw [amountText_eq_spec]
  cases h : t.payload with
  | empty =>
    simp only [specAmountText, h]
    exact hfc _ _ _
  | nftTransfer =>
    by_cases hd : t.displayedAmount = 0
    · simp [specAmountText, h, hd]
    · simp only [specAmountText, h, hd, ne_eq, not_false_eq_true, if_true]
      exact append_ne_empty_right _ _ (hfc _ _ _)
  | tokenTransfer slug amount =>
    cases hl : lookupToken tokensBySlug slug with
    | none =>
      simp only [specAmountText, h, hl]
      exact hfc _ _ _
    | some token =>
      by_cases he : fc amount token.decimals token.symbol = ""
      · simp only [specAmountText, h, hl, he, if_pos rfl, if_true]
        exact hfc _ _ _
      · by_cases hd : t.displayedAmount = 0
        · simp only [specAmountText, h, hl, if_neg he, hd, ne_eq, not_true_eq_false,
            if_false]
          exact he
        · simp only [specAmountText, h, hl, if_neg he, hd, ne_eq, not_false_eq_true,
            if_true]
          exact append_ne_empty_right _ _ (hfc _ _ _)

theorem sample_sort_eval : sortTransactions (some sampleTransfers) sampleTokens
    = Except.ok (some sampleRows) := by
  simp [sortTransactions, annotateFrom, getTransactionCostForSorting, lookupToken,
    sampleTokens, sampleTransfers, sampleT0, sampleT1, sampleT2, sampleNative,
    sampleTokenX, TONCOIN, toBigToNumber, NFT_FAKE_COST_USD, List.mergeSort,
    List.splitInTwo, sortingLE, sampleRows]
  norm_num [List.merge, sortingLE]

/-- Witness for C1 at a concrete token transfer and price table. -/
theorem claim_C1_witness :
    lookupToken sampleTokens TONCOIN.slug = some sampleNative
      ∧ getTransactionCostForSorting sampleT2 sampleTokens
          = some (specSortingCost sampleNative sampleTokens sampleT2) :=
  ⟨by decide, claim_C1_sorting_cost_formula sampleTokens sampleT2 sampleNative (by decide)⟩

/-- Witness for C2: in the concrete sorted output, the NFT row (position 0)
precedes the token row (position 1). -/
theorem claim_C2_witness :
    isNftTransferPayload ((sampleRows.get ⟨0, by decide⟩).payload) = true
      ∧ (0 : Nat) < 1 :=
  ⟨by decide,
    claim_C2_nft_priority sampleTokens sampleNative sampleTransfers sampleRows
      (by decide) (by decide) (by decide) sample_sort_eval 0 1 (by decide) (by decide)
      (by decide) (by decide) (by decide)⟩

/-- Witness for C3 at the concrete input: the first output row carries
index 1 and is the input element at position 1, and the output indices are
pairwise distinct. -/
theorem claim_C3_witness :
    sampleTransfers[(1 : Nat)]? = some sampleT1
      ∧ (sampleRows.map fun r => r.index).Nodup := by
  have h := claim_C3_index_stability sampleTokens sampleNative sampleTransfers sampleRows
    (by decide) sample_sort_eval
  exact ⟨h.1 ⟨sampleT1, 1, 1000000000⟩ (by decide), h.2⟩

/-- Witness for C4 at the concrete input, positions 0 and 1. -/
theorem claim_C4_witness :
    (sampleRows.get ⟨1, by decide⟩).sortingCost ≤ (sampleRows.get ⟨0, by decide⟩).sortingCost
      ∧ ((sampleRows.get ⟨0, by decide⟩).sortingCost
            = (sampleRows.get ⟨1, by decide⟩).sortingCost
          → (sampleRows.get ⟨0, by decide⟩).index < (sampleRows.get ⟨1, by decide⟩).index) :=
  claim_C4_descending_stable sampleTokens sampleNative sampleTransfers sampleRows
    (by decide) sample_sort_eval 0 1 (by decide) (by decide) (by decide)

/-- Witness for C6 at a concrete token transfer with an unknown slug. -/
theorem claim_C6_witness :
    lookupToken sampleTokens ("zzz") = Option.none
      ∧ getTransactionCostForSorting sampleT3 sampleTokens
          = some (sampleNative.quote.priceUsd
              * toBigToNumber (sampleT3.displayedAmount + sampleT3.fullFee) TONCOIN.decimals) :=
  ⟨by decide,
    claim_C6_missing_token_graceful sampleTokens sampleT3 sampleNative ("zzz") 7
      (by decide) (by decide) (by decide)⟩

/-- Witness for C9 at the concrete input: the first output row preserves
its source request and carries that request's computed cost. -/
theorem claim_C9_witness :
    sampleTransfers[(1 : Nat)]? = some sampleT1
      ∧ getTransactionCostForSorting sampleT1 sampleTokens = some 1000000000 := by
  have h := claim_C9_row_preserves_request sampleTokens sampleNative sampleTransfers
    sampleRows (by decide) sample_sort_eval
  exact h ⟨sampleT1, 1, 1000000000⟩ (by decide)

/-- Witness for C10 at a concrete transfer and a formatter that never
returns empty text. -/
theorem claim_C10_witness :
    transactionRowAmountText sampleFormat sampleTokens sampleT0 ≠ "" :=
  claim_C10_text_nonempty sampleFormat sampleTokens sampleT0
    (fun a d s => by unfold sampleFormat; decide)

end DappTransferInitial
